import Mathlib

/-!
Verification development for the deduplicating, content-addressable
file-system engine.  The definitions below are a shallow embedding of the
TypeScript sources: `FilePath`, `ContentHash`, `FileNode`/`DirectoryNode`,
`FileSystemService`, `OrphanCleanupService` and the `PostgresRepository`
backing (SQL semantics).  Operations are modelled as pure functions on an
explicit store state; every store call made by the service is recorded in an
event trace so that claims about which calls happen (and in which order) can
be stated.
-/

namespace FsProof

/-! ## Bytes and SHA-256 (model of the node `crypto` SHA-256, FIPS 180-4) -/

/-- Byte strings are lists of byte values. -/
abbrev Bytes := List Nat

/-- Truncate to a 32-bit word. -/
def w32 (x : Nat) : Nat := x % 4294967296

/-- 32-bit right rotation. -/
def rotr32 (n x : Nat) : Nat := w32 ((x >>> n) ||| (x <<< (32 - n)))

/-- Bitwise complement within 32 bits. -/
def not32 (x : Nat) : Nat := x ^^^ 4294967295

def bigSigma0 (x : Nat) : Nat := (rotr32 2 x) ^^^ (rotr32 13 x) ^^^ (rotr32 22 x)

def bigSigma1 (x : Nat) : Nat := (rotr32 6 x) ^^^ (rotr32 11 x) ^^^ (rotr32 25 x)

def smallSigma0 (x : Nat) : Nat := (rotr32 7 x) ^^^ (rotr32 18 x) ^^^ (x >>> 3)

def smallSigma1 (x : Nat) : Nat := (rotr32 17 x) ^^^ (rotr32 19 x) ^^^ (x >>> 10)

def chF (x y z : Nat) : Nat := (x &&& y) ^^^ (not32 x &&& z)

def majF (x y z : Nat) : Nat := (x &&& y) ^^^ (x &&& z) ^^^ (y &&& z)

/-- The 64 SHA-256 round constants. -/
def K256 : List Nat :=
  [1116352408, 1899447441, 3049323471, 3921009573, 961987163,
   1508970993, 2453635748, 2870763221, 3624381080, 310598401,
   607225278, 1426881987, 1925078388, 2162078206, 2614888103,
   3248222580, 3835390401, 4022224774, 264347078, 604807628,
   770255983, 1249150122, 1555081692, 1996064986, 2554220882,
   2821834349, 2952996808, 3210313671, 3336571891, 3584528711,
   113926993, 338241895, 666307205, 773529912, 1294757372,
   1396182291, 1695183700, 1986661051, 2177026350, 2456956037,
   2730485921, 2820302411, 3259730800, 3345764771, 3516065817,
   3600352804, 4094571909, 275423344, 430227734, 506948616,
   659060556, 883997877, 958139571, 1322822218, 1537002063,
   1747873779, 1955562222, 2024104815, 2227730452, 2361852424,
   2428436474, 2756734187, 3204031479, 3329325298]

/-- The SHA-256 initial hash value. -/
def H256 : List Nat :=
  [1779033703, 3144134277, 1013904242, 2773480762,
   1359893119, 2600822924, 528734635, 1541459225]

/-- Big-endian byte rendering of `x` on `n` bytes. -/
def beBytes (n x : Nat) : List Nat :=
  (List.range n).map (fun i => (x >>> (8 * (n - 1 - i))) % 256)

/-- SHA-256 padding: append `0x80`, zeros to 56 mod 64, then the 64-bit
big-endian bit length. -/
def sha256pad (msg : List Nat) : List Nat :=
  let L := msg.length
  let z := (119 - (L % 64)) % 64
  msg ++ 128 :: List.replicate z 0 ++ beBytes 8 (8 * L)

/-- Group bytes into big-endian 32-bit words. -/
def toWords : List Nat → List Nat
  | b0 :: b1 :: b2 :: b3 :: rest => (((b0 * 256 + b1) * 256 + b2) * 256 + b3) :: toWords rest
  | _ => []

/-- One step of the message-schedule extension; `acc` holds the words
produced so far, most recent first. -/
def schedStep (acc : List Nat) : List Nat :=
  w32 (smallSigma1 (acc.getD 1 0) + acc.getD 6 0 + smallSigma0 (acc.getD 14 0) + acc.getD 15 0)
    :: acc

/-- Extend the 16 chunk words to the 64-entry message schedule. -/
def sched (ws : List Nat) : List Nat :=
  ((List.range 48).foldl (fun acc _ => schedStep acc) ws.reverse).reverse

/-- One SHA-256 compression round on the working variables. -/
def compressStep (st : List Nat) (kw : Nat × Nat) : List Nat :=
  match st with
  | [a, b, c, d, e, f, g, h] =>
    let t1 := w32 (h + bigSigma1 e + chF e f g + kw.1 + kw.2)
    let t2 := w32 (bigSigma0 a + majF a b c)
    [w32 (t1 + t2), a, b, c, w32 (d + t1), e, f, g]
  | other => other

/-- Process one 64-byte chunk. -/
def compressChunk (hs : List Nat) (chunkWords : List Nat) : List Nat :=
  let st := ((K256.zip (sched chunkWords))).foldl compressStep hs
  (hs.zip st).map (fun p => w32 (p.1 + p.2))

/-- Split into 64-byte chunks (fuelled structural recursion). -/
def chunks64Go : Nat → List Nat → List (List Nat)
  | 0, _ => []
  | _, [] => []
  | fuel + 1, bs => bs.take 64 :: chunks64Go fuel (bs.drop 64)

def chunks64 (bs : List Nat) : List (List Nat) := chunks64Go bs.length bs

def hexDigit (n : Nat) : Char :=
  if n < 10 then Char.ofNat (48 + n) else Char.ofNat (87 + n)

/-- Lowercase-hex rendering of a 32-bit word. -/
def hex8 (x : Nat) : List Char :=
  (List.range 8).map (fun i => hexDigit ((x >>> (4 * (7 - i))) % 16))

/-- SHA-256 of a byte string rendered as 64 lowercase hex characters:
the model of `ContentHash.fromContent` (node `crypto`, FIPS 180-4). -/
def sha256hex (msg : Bytes) : String :=
  let hs := (chunks64 (sha256pad msg)).foldl (fun h c => compressChunk h (toWords c)) H256
  String.mk (hs.foldr (fun w acc => hex8 w ++ acc) [])

/-- ASCII bytes of a string (`Buffer.from` for ASCII content). -/
def strBytes (s : String) : Bytes := s.data.map Char.toNat

/-! ## Path validation and manipulation (`FilePath.ts` and the service's
`parentPath` computation) -/

/-- Substring test: `s.includes(pat)` on the character level. -/
def strIncludes (s pat : String) : Bool :=
  (s.data.tails).any (fun t => pat.data.isPrefixOf t)

/-- Prefix test on the character level (`path.startsWith(q)` / SQL
`LIKE q || escaped-percent`). -/
def strStartsWith (p q : String) : Bool := q.data.isPrefixOf p.data

/-- The validation of `FilePath.create`: absolute, no `..`, no NUL byte.
Returns `true` when the path is accepted.  (`FilePath.create` throws on the
rejected strings; the empty string fails the `startsWith("/")` test.) -/
def validPath (p : String) : Bool :=
  strStartsWith p "/" && !(strIncludes p "..") && !(strIncludes p (String.mk [Char.ofNat 0]))

/-- Number of `'/'` characters (`(path.match(/\//g) || []).length`, SQL
`LENGTH(path) - LENGTH(REPLACE(path, '/', ''))`). -/
def slashCount (p : String) : Nat := p.data.count '/'

/-- Characters strictly before the last `'/'`; `[]` when there is none
(`path.substring(0, path.lastIndexOf("/"))`, which is `""` both when the
last slash is at position 0 and when there is no slash). -/
def lastSlashPre (cs : List Char) : List Char :=
  match cs.reverse.dropWhile (fun c => c ≠ '/') with
  | [] => []
  | _ :: rest => rest.reverse

/-- The service's parent computation:
`path.substring(0, path.lastIndexOf("/")) || "/"`. -/
def parentPath (p : String) : String :=
  let pre := lastSlashPre p.data
  if pre = [] then "/" else String.mk pre

/-! ## Data model (`FileNode.ts`, `DirectoryNode.ts`, `blobs` table) -/

/-- A metadata node: tagged variant of `FileNode` and `DirectoryNode`.
Timestamps are a logical clock standing for `Date` values. -/
inductive NodeT : Type
  | file (hash : String) (size : Nat) (mime : String) (createdAt modifiedAt : Nat)
  | dir (createdAt modifiedAt : Nat)
deriving DecidableEq, Repr

/-- A row of the `blobs` table. -/
structure BlobRec where
  refcount : Nat
  size : Nat
  createdAt : Nat
  lastAccessedAt : Nat
deriving DecidableEq, Repr

/-! ## Association-list store primitives (keyed maps: `fs_nodes` rows of the
current tenant, the blob objects, and the `blobs` table) -/

def alGet {α : Type} : List (String × α) → String → Option α
  | [], _ => none
  | (k2, v) :: rest, k => if k2 = k then some v else alGet rest k

/-- Insert or replace the binding of `k`. -/
def alSet {α : Type} : List (String × α) → String → α → List (String × α)
  | [], k, v => [(k, v)]
  | (k2, v2) :: rest, k, v =>
    if k2 = k then (k, v) :: rest else (k2, v2) :: alSet rest k v

def alRemove {α : Type} (m : List (String × α)) (k : String) : List (String × α) :=
  m.filter (fun p => p.1 != k)

/-- The combined store state seen by the engine: per-tenant metadata nodes,
blob objects keyed by hash, and the `blobs` refcount table. -/
structure FsState where
  nodes : List (String × NodeT)
  blobs : List (String × Bytes)
  refs : List (String × BlobRec)
deriving DecidableEq, Repr

/-! ## Metadata-store semantics (`PostgresRepository.ts`) -/

/-- `incrementBlobRefCount`: `INSERT ... VALUES (h, 1, 0, now, now)
ON CONFLICT DO UPDATE SET reference_count = reference_count + 1,
last_accessed_at = now`. -/
def incRefRecs (rs : List (String × BlobRec)) (h : String) (t : Nat) :
    List (String × BlobRec) :=
  match alGet rs h with
  | none => alSet rs h ⟨1, 0, t, t⟩
  | some r => alSet rs h { r with refcount := r.refcount + 1, lastAccessedAt := t }

/-- `decrementBlobRefCount`: `UPDATE blobs SET reference_count =
reference_count - 1 ... RETURNING reference_count`; a missing row returns 0;
decrementing a zero row violates `CHECK (reference_count >= 0)` and the
operation errors (`none`). -/
def decRefRecs (rs : List (String × BlobRec)) (h : String) (t : Nat) :
    Option (Nat × List (String × BlobRec)) :=
  match alGet rs h with
  | none => some (0, rs)
  | some r =>
    if r.refcount = 0 then none
    else
      some (r.refcount - 1,
        alSet rs h { r with refcount := r.refcount - 1, lastAccessedAt := t })

/-- Rank used by `ORDER BY type DESC`: `'file' > 'directory'` in SQL string
order, so descending order puts files first. -/
def typeRank : NodeT → Nat
  | NodeT.file _ _ _ _ _ => 0
  | NodeT.dir _ _ => 1

/-- The total preorder realised by `ORDER BY type DESC, path ASC`. -/
def childLE (a b : String × NodeT) : Prop :=
  typeRank a.2 < typeRank b.2 ∨ (typeRank a.2 = typeRank b.2 ∧ a.1 ≤ b.1)

instance : DecidableRel childLE := fun a b => by
  unfold childLE; infer_instance

instance : IsTotal (String × NodeT) childLE := by
  constructor
  intro a b
  rcases Nat.lt_trichotomy (typeRank a.2) (typeRank b.2) with h | h | h
  · exact Or.inl (Or.inl h)
  · rcases le_total a.1 b.1 with h2 | h2
    · exact Or.inl (Or.inr ⟨h, h2⟩)
    · exact Or.inr (Or.inr ⟨h.symm, h2⟩)
  · exact Or.inr (Or.inl h)

instance : IsTrans (String × NodeT) childLE := by
  constructor
  intro a b c hab hbc
  rcases hab with h1 | ⟨h1, h1p⟩
  · rcases hbc with h2 | ⟨h2, _⟩
    · exact Or.inl (h1.trans h2)
    · exact Or.inl (h2 ▸ h1)
  · rcases hbc with h2 | ⟨h2, h2p⟩
    · exact Or.inl (h1 ▸ h2)
    · exact Or.inr ⟨h1.trans h2, le_trans h1p h2p⟩

/-- The LIKE pattern prefix used by `listChildren`:
`directoryPath === "/" ? "/" : directoryPath + "/"` (the SQL pattern is this
prefix followed by `%`). -/
def childPrefix (d : String) : String := if d = "/" then "/" else d ++ "/"

/-- The slash-count filter value used by `listChildren`. -/
def childDepth (d : String) : Nat := if d = "/" then 1 else slashCount d + 1

/-- PostgreSQL `LIKE` matching of a pattern against a string, both as
character lists: `%` matches any sequence, `_` any single character, and
the default escape character `\` makes the following pattern character
literal.  (A pattern ending in a bare `\` raises an SQL error in
PostgreSQL; it cannot arise from the query below, whose pattern always
ends in `/%`, and the model returns no match for it.) -/
def likeMatch : List Char → List Char → Bool
  | [], s => s.isEmpty
  | c :: ps, s =>
    if c = '%' then s.tails.any (fun s2 => likeMatch ps s2)
    else if c = '_' then
      match s with
      | [] => false
      | _ :: s2 => likeMatch ps s2
    else if c = '\\' then
      match ps with
      | [] => false
      | c2 :: ps2 =>
        match s with
        | [] => false
        | c3 :: s2 => c3 = c2 && likeMatch ps2 s2
    else
      match s with
      | [] => false
      | c2 :: s2 => c2 = c && likeMatch ps s2

/-- Row filter of the `LIST_CHILDREN` query: `path LIKE pattern AND
path != directoryPath AND slashcount(path) = depth`, where the pattern is
the unescaped interpolation `directoryPath + "/%"` (just `"/%"` for the
root) — so `_`, `%` and `\` already inside the directory path stay live
`LIKE` metacharacters. -/
def childFilter (d : String) (pn : String × NodeT) : Bool :=
  likeMatch ((childPrefix d).data ++ ['%']) pn.1.data && pn.1 != d &&
    (slashCount pn.1 == childDepth d)

/-- `PostgresRepository.listChildren`: the filtered rows ordered by
`type DESC, path ASC`. -/
def listChildrenQ (nodes : List (String × NodeT)) (d : String) :
    List (String × NodeT) :=
  List.insertionSort childLE (nodes.filter (childFilter d))

/-- `getOrphanBlobs`: hashes of rows with `reference_count = 0`, ordered by
`last_accessed_at` ascending, `LIMIT 1000`. -/
def getOrphanBlobs (s : FsState) : List String :=
  ((List.insertionSort
      (fun (a b : String × BlobRec) => a.2.lastAccessedAt ≤ b.2.lastAccessedAt)
      (s.refs.filter (fun r => r.2.refcount == 0))).take 1000).map (fun r => r.1)

/-! ## Store-call events, errors, operation outcomes -/

/-- One call into the metadata store or the blob store, as issued by the
service.  The trace of an operation records these in order. -/
inductive Ev : Type
  | metaGetNode (path : String)
  | metaCreateNode (path : String)
  | metaUpdateNode (path : String)
  | metaDeleteNode (path : String)
  | metaListChildren (path : String)
  | metaIncRef (hash : String)
  | metaDecRef (hash : String)
  | blobExists (hash : String)
  | blobWrite (hash : String)
  | blobRead (hash : String)
  | blobDelete (hash : String)
deriving DecidableEq, Repr

/-- Error taxonomy of `FsErrors.ts` (plus the blob-missing throw of the blob
store and the `CHECK` violation surfaced by the metadata store). -/
inductive Err : Type
  | fileNotFound
  | directoryNotFound
  | fileAlreadyExists
  | directoryNotEmpty
  | invalidPath
  | blobMissing
  | invariantViolation
deriving DecidableEq, Repr

/-- Outcome of one service operation: result or thrown error, the store
state after the operation, and the trace of store calls it made. -/
structure Out (α : Type) where
  res : Except Err α
  st : FsState
  tr : List Ev

/-! ## Mime lookup -/

/-- Modelled from the spec: the `mime-types` library lookup used by
`writeFile` ("compute mimeType from path suffix"); `none` stands for the
library's `false` on an unknown suffix, and the caller defaults to
`application/octet-stream`. -/
def mimeLookup (path : String) : Option String :=
  let cs := path.data
  if cs.contains '.' then
    let ext := String.mk (cs.reverse.takeWhile (fun c => c ≠ '.')).reverse
    if ext = "txt" then some "text/plain"
    else if ext = "png" then some "image/png"
    else if ext = "html" then some "text/html"
    else none
  else none

/-! ## FileSystemService (`FileSystemService.ts`) -/

/-- `createDirectory`: validate; conflict when the path exists; for
non-root paths require a node at the parent; insert a `DirectoryNode`. -/
def createDirectory (s : FsState) (path : String) (t : Nat) : Out Unit :=
  if validPath path then
    let tr1 : List Ev := [Ev.metaGetNode path]
    match alGet s.nodes path with
    | some _ => ⟨Except.error Err.fileAlreadyExists, s, tr1⟩
    | none =>
      if path = "/" then
        ⟨Except.ok (), { s with nodes := alSet s.nodes path (NodeT.dir t t) },
          tr1 ++ [Ev.metaCreateNode path]⟩
      else
        let pp := parentPath path
        let tr2 := tr1 ++ [Ev.metaGetNode pp]
        match alGet s.nodes pp with
        | none => ⟨Except.error Err.directoryNotFound, s, tr2⟩
        | some _ =>
          ⟨Except.ok (), { s with nodes := alSet s.nodes path (NodeT.dir t t) },
            tr2 ++ [Ev.metaCreateNode path]⟩
  else ⟨Except.error Err.invalidPath, s, []⟩

/-- `writeFile`, update branch (existing `FileNode` at `path`):
`updateContent` + `updateNode`, then `incrementBlobRefCount(new)`,
`decrementBlobRefCount(old)`, and `blob.delete(old)` when the count hit 0. -/
def writeFileUpdate (s : FsState) (path : String) (content : Bytes) (t : Nat)
    (hashString oldHash mime : String) (cAt : Nat) (tr2 : List Ev) : Out Unit :=
  let s2 := { s with nodes := alSet s.nodes path (NodeT.file hashString content.length mime cAt t) }
  let s3 := { s2 with refs := incRefRecs s2.refs hashString t }
  let tr3 := tr2 ++ [Ev.metaUpdateNode path, Ev.metaIncRef hashString, Ev.metaDecRef oldHash]
  match decRefRecs s3.refs oldHash t with
  | none => ⟨Except.error Err.invariantViolation, s3, tr3⟩
  | some (r, rs) =>
    let s4 := { s3 with refs := rs }
    if r = 0 then
      ⟨Except.ok (), { s4 with blobs := alRemove s4.blobs oldHash },
        tr3 ++ [Ev.blobDelete oldHash]⟩
    else ⟨Except.ok (), s4, tr3⟩

/-- `writeFile`, new-file branch: require a node at the parent, compute the
mime type, `createNode`, `incrementBlobRefCount`. -/
def writeFileCreate (s : FsState) (path : String) (content : Bytes) (t : Nat)
    (hashString : String) (tr2 : List Ev) : Out Unit :=
  let pp := parentPath path
  let tr3 := tr2 ++ [Ev.metaGetNode pp]
  match alGet s.nodes pp with
  | none => ⟨Except.error Err.directoryNotFound, s, tr3⟩
  | some _ =>
    let mt := (mimeLookup path).getD "application/octet-stream"
    let s2 := { s with nodes := alSet s.nodes path (NodeT.file hashString content.length mt t t) }
    let s3 := { s2 with refs := incRefRecs s2.refs hashString t }
    ⟨Except.ok (), s3, tr3 ++ [Ev.metaCreateNode path, Ev.metaIncRef hashString]⟩

/-- `writeFile`, steps after the blob phase: look up the node at `path` and
dispatch on file / directory / absent. -/
def writeFileAfterBlob (s : FsState) (path : String) (content : Bytes) (t : Nat)
    (hashString : String) (tr1 : List Ev) : Out Unit :=
  let tr2 := tr1 ++ [Ev.metaGetNode path]
  match alGet s.nodes path with
  | some (NodeT.file oldHash _ mime cAt _) =>
    writeFileUpdate s path content t hashString oldHash mime cAt tr2
  | some (NodeT.dir _ _) => ⟨Except.error Err.fileAlreadyExists, s, tr2⟩
  | none => writeFileCreate s path content t hashString tr2

/-- `writeFile`: validate the path, hash the content, write the blob if it
is not already present, then update or create the metadata node. -/
def writeFile (s : FsState) (path : String) (content : Bytes) (t : Nat) : Out Unit :=
  if validPath path then
    let hashString := sha256hex content
    if (alGet s.blobs hashString).isSome then
      writeFileAfterBlob s path content t hashString [Ev.blobExists hashString]
    else
      writeFileAfterBlob { s with blobs := alSet s.blobs hashString content }
        path content t hashString [Ev.blobExists hashString, Ev.blobWrite hashString]
  else ⟨Except.error Err.invalidPath, s, []⟩

/-- `readFile`: look up the node (no path validation), require a file, read
the blob. -/
def readFile (s : FsState) (path : String) : Out Bytes :=
  let tr1 : List Ev := [Ev.metaGetNode path]
  match alGet s.nodes path with
  | none => ⟨Except.error Err.fileNotFound, s, tr1⟩
  | some (NodeT.dir _ _) => ⟨Except.error Err.fileNotFound, s, tr1⟩
  | some (NodeT.file h _ _ _ _) =>
    match alGet s.blobs h with
    | none => ⟨Except.error Err.blobMissing, s, tr1 ++ [Ev.blobRead h]⟩
    | some b => ⟨Except.ok b, s, tr1 ++ [Ev.blobRead h]⟩

/-- `deleteFile`: require a file (no path validation), `deleteNode`,
`decrementBlobRefCount`, `blob.delete` when the count hit 0. -/
def deleteFile (s : FsState) (path : String) (t : Nat) : Out Unit :=
  let tr1 : List Ev := [Ev.metaGetNode path]
  match alGet s.nodes path with
  | none => ⟨Except.error Err.fileNotFound, s, tr1⟩
  | some (NodeT.dir _ _) => ⟨Except.error Err.fileNotFound, s, tr1⟩
  | some (NodeT.file h _ _ _ _) =>
    let s1 := { s with nodes := alRemove s.nodes path }
    let tr2 := tr1 ++ [Ev.metaDeleteNode path, Ev.metaDecRef h]
    match decRefRecs s1.refs h t with
    | none => ⟨Except.error Err.invariantViolation, s1, tr2⟩
    | some (r, rs) =>
      let s2 := { s1 with refs := rs }
      if r = 0 then
        ⟨Except.ok (), { s2 with blobs := alRemove s2.blobs h }, tr2 ++ [Ev.blobDelete h]⟩
      else ⟨Except.ok (), s2, tr2⟩

/-- `deleteDirectory`: require a directory (no path validation, no root
check), require `listChildren` empty, `deleteNode`. -/
def deleteDirectory (s : FsState) (path : String) : Out Unit :=
  let tr1 : List Ev := [Ev.metaGetNode path]
  match alGet s.nodes path with
  | none => ⟨Except.error Err.directoryNotFound, s, tr1⟩
  | some (NodeT.file _ _ _ _ _) => ⟨Except.error Err.directoryNotFound, s, tr1⟩
  | some (NodeT.dir _ _) =>
    let children := listChildrenQ s.nodes path
    let tr2 := tr1 ++ [Ev.metaListChildren path]
    if children.length > 0 then ⟨Except.error Err.directoryNotEmpty, s, tr2⟩
    else ⟨Except.ok (), { s with nodes := alRemove s.nodes path }, tr2 ++ [Ev.metaDeleteNode path]⟩

/-- `listDirectory`: require a directory, return `listChildren` verbatim. -/
def listDirectory (s : FsState) (path : String) : Out (List (String × NodeT)) :=
  let tr1 : List Ev := [Ev.metaGetNode path]
  match alGet s.nodes path with
  | none => ⟨Except.error Err.directoryNotFound, s, tr1⟩
  | some (NodeT.file _ _ _ _ _) => ⟨Except.error Err.directoryNotFound, s, tr1⟩
  | some (NodeT.dir _ _) =>
    ⟨Except.ok (listChildrenQ s.nodes path), s, tr1 ++ [Ev.metaListChildren path]⟩

/-- `getInfo`: return the node at the path or `FileNotFoundError`. -/
def getInfo (s : FsState) (path : String) : Out NodeT :=
  let tr1 : List Ev := [Ev.metaGetNode path]
  match alGet s.nodes path with
  | none => ⟨Except.error Err.fileNotFound, s, tr1⟩
  | some n => ⟨Except.ok n, s, tr1⟩

/-- `copyFile` is literally `readFile(source)` then
`writeFile(destination, content)`. -/
def copyFile (s : FsState) (src dst : String) (t : Nat) : Out Unit :=
  let r := readFile s src
  match r.res with
  | Except.error e => ⟨Except.error e, r.st, r.tr⟩
  | Except.ok content =>
    let w := writeFile r.st dst content t
    ⟨w.res, w.st, r.tr ++ w.tr⟩

/-- `moveFile` is `copyFile(source, destination)` then
`deleteFile(source)`. -/
def moveFile (s : FsState) (src dst : String) (t : Nat) : Out Unit :=
  let c := copyFile s src dst t
  match c.res with
  | Except.error e => ⟨Except.error e, c.st, c.tr⟩
  | Except.ok _ =>
    let d := deleteFile c.st src t
    ⟨d.res, d.st, c.tr ++ d.tr⟩

/-! ## OrphanCleanupService (`OrphanCleanupService.ts`) -/

/-- `blob.deleteMany`. -/
def deleteManyBlobs (blobs : List (String × Bytes)) (hashes : List String) :
    List (String × Bytes) :=
  hashes.foldl (fun b h => alRemove b h) blobs

/-- One `cleanup` pass: fetch the orphan hashes, delete those blob objects,
return the count.  Note the `blobs`-table rows are not touched. -/
def cleanup (s : FsState) : Nat × FsState :=
  let orphanHashes := getOrphanBlobs s
  if orphanHashes.length = 0 then (0, s)
  else (orphanHashes.length, { s with blobs := deleteManyBlobs s.blobs orphanHashes })

/-- `cleanupInBatches`, fuelled: repeat `cleanup` until a pass deletes fewer
than `batchSize`.  `none` means the fuel ran out before the loop exited,
witnessing that the source's unbounded `while (true)` has not terminated
within `fuel` passes. -/
def cleanupInBatches : Nat → FsState → Nat → Nat → Option (Nat × FsState)
  | 0, _, _, _ => none
  | fuel + 1, s, batchSize, total =>
    let p := cleanup s
    let total2 := total + p.1
    if p.1 < batchSize then some (total2, p.2)
    else cleanupInBatches fuel p.2 batchSize total2

/-! ## Trace-ordering predicates -/

/-- No event of class `f` occurs in `tr`. -/
def evNone (f : Ev → Bool) (tr : List Ev) : Bool := tr.all (fun e => !(f e))

/-- Every event of class `a` occurs before every event of class `b` in
`tr`: after any `b`-event no `a`-event follows. -/
def allBefore (a b : Ev → Bool) : List Ev → Bool
  | [] => true
  | e :: tr => (!(b e) || evNone a tr) && allBefore a b tr

def isBlobWrite : Ev → Bool
  | Ev.blobWrite _ => true
  | _ => false

def isMetaCreate : Ev → Bool
  | Ev.metaCreateNode _ => true
  | _ => false

def isIncRef : Ev → Bool
  | Ev.metaIncRef _ => true
  | _ => false

def isDecRef : Ev → Bool
  | Ev.metaDecRef _ => true
  | _ => false

/-! ## The ordering asserted by the spec for `listChildren` -/

/-- Rank for the spec's claimed ordering: directories before files. -/
def specDirRank : NodeT → Nat
  | NodeT.dir _ _ => 0
  | NodeT.file _ _ _ _ _ => 1

/-- The ordering the spec claims for `listChildren`: directories before
files, then ascending path. -/
def specChildLE (a b : String × NodeT) : Prop :=
  specDirRank a.2 < specDirRank b.2 ∨ (specDirRank a.2 = specDirRank b.2 ∧ a.1 ≤ b.1)

instance : DecidableRel specChildLE := fun a b => by
  unfold specChildLE; infer_instance

/-! ## Concrete states and inputs used to instantiate the theorems -/

/-- The empty store. -/
def stEmpty : FsState := ⟨[], [], []⟩

/-- A store holding only the tenant root directory. -/
def stRoot : FsState := ⟨[("/", NodeT.dir 0 0)], [], []⟩

/-- Bytes of `"Hello World"`. -/
def hwBytes : Bytes := strBytes "Hello World"

/-- Bytes of `"data"`. -/
def dataBytes : Bytes := strBytes "data"

/-- State after `writeFile("/f.txt", "data")` at time 1 on the root-only
store. -/
def stOneFile : FsState := (writeFile stRoot "/f.txt" dataBytes 1).st

/-- Bytes of `"v1"` and `"v2"`. -/
def v1Bytes : Bytes := strBytes "v1"

def v2Bytes : Bytes := strBytes "v2"

def v1Hash : String := sha256hex v1Bytes

def v2Hash : String := sha256hex v2Bytes

/-- Store with root, a source file `/a` (content `"v1"`), a destination
file `/b` (content `"v2"`) and a destination directory `/d`. -/
def stCopy : FsState :=
  ⟨[("/", NodeT.dir 0 0),
    ("/a", NodeT.file v1Hash 2 "application/octet-stream" 1 1),
    ("/b", NodeT.file v2Hash 2 "application/octet-stream" 1 1),
    ("/d", NodeT.dir 1 1)],
   [(v1Hash, v1Bytes), (v2Hash, v2Bytes)],
   [(v1Hash, ⟨1, 0, 1, 1⟩), (v2Hash, ⟨1, 0, 1, 1⟩)]⟩

/-- State after `writeFile("/a.txt", "v1")` at time 1 on the root-only
store (used for the copy scenario with differing extensions). -/
def stSrcTxt : FsState := (writeFile stRoot "/a.txt" v1Bytes 1).st

/-- Store with root and a plain file at `/a` (content `"v1"`), used to show
that a file is accepted as the parent of a new node. -/
def stFileParent : FsState :=
  ⟨[("/", NodeT.dir 0 0), ("/a", NodeT.file v1Hash 2 "application/octet-stream" 1 1)],
   [(v1Hash, v1Bytes)],
   [(v1Hash, ⟨1, 0, 1, 1⟩)]⟩

/-- Metadata rows used to exercise `listChildren` ordering: a file and a
directory under the root. -/
def exNodes : List (String × NodeT) :=
  [("/", NodeT.dir 0 0), ("/a.txt", NodeT.file "h" 1 "text/plain" 0 0),
   ("/b", NodeT.dir 0 0)]

/-- Metadata rows exercising the live `LIKE` wildcard: `/my_dir` is empty,
but its `_` matches the `X` of `/myXdir`, whose child `/myXdir/f` passes
the pattern and depth filters of `listChildren("/my_dir")`. -/
def wildNodes : List (String × NodeT) :=
  [("/", NodeT.dir 0 0), ("/my_dir", NodeT.dir 0 0), ("/myXdir", NodeT.dir 0 0),
   ("/myXdir/f", NodeT.file "h" 1 "text/plain" 0 0)]

/-- Store built on `wildNodes`. -/
def stWild : FsState := ⟨wildNodes, [], []⟩

/-- Store with one orphaned `blobs`-table row (`reference_count = 0`) whose
blob object is still present. -/
def stOrphan : FsState := ⟨[], [("h1", [1, 2])], [("h1", ⟨0, 4, 0, 0⟩)]⟩

/-- `stOrphan` after one `cleanup` pass: the blob object is gone but the
`blobs`-table row remains. -/
def stOrphanSwept : FsState := ⟨[], [], [("h1", ⟨0, 4, 0, 0⟩)]⟩

theorem evNone_append {f : Ev → Bool} {t1 t2 : List Ev} :
    evNone f (t1 ++ t2) = (evNone f t1 && evNone f t2) := by
  simp [evNone, List.all_append]

theorem allBefore_of_none_left {a b : Ev → Bool} {t1 t2 : List Ev}
    (h1 : evNone b t1 = true) (h2 : allBefore a b t2 = true) :
    allBefore a b (t1 ++ t2) = true := by
  induction t1 with
  | nil => simpa using h2
  | cons e t ih =>
    simp only [evNone, List.all_cons, Bool.and_eq_true, Bool.not_eq_true'] at h1
    simp only [List.cons_append, allBefore, Bool.and_eq_true]
    exact ⟨by simp [h1.1], ih h1.2⟩

theorem allBefore_of_split {a b : Ev → Bool} {t1 t2 : List Ev}
    (h1 : evNone b t1 = true) (h2 : evNone a t2 = true) :
    allBefore a b (t1 ++ t2) = true := by
  refine allBefore_of_none_left h1 ?_
  induction t2 with
  | nil => rfl
  | cons e t ih =>
    simp only [evNone, List.all_cons, Bool.and_eq_true] at h2
    simp only [allBefore, Bool.and_eq_true]
    refine ⟨Bool.or_eq_true_iff.mpr (Or.inr ?_), ih h2.2⟩
    simp [evNone, h2.2]

/-! ## Association-list lemmas -/

theorem alGet_alSet_self {α : Type} (m : List (String × α)) (k : String) (v : α) :
    alGet (alSet m k v) k = some v := by
  induction m with
  | nil => simp [alSet, alGet]
  | cons h t ih =>
    by_cases hk : h.1 = k
    · simp [alSet, hk, alGet]
    · simp [alSet, hk, alGet, ih]

theorem alGet_alSet_ne {α : Type} (m : List (String × α)) (k k2 : String) (v : α)
    (h : k2 ≠ k) : alGet (alSet m k v) k2 = alGet m k2 := by
  have hkk : ¬(k = k2) := fun hh => h hh.symm
  induction m with
  | nil => simp [alSet, alGet, hkk]
  | cons hd t ih =>
    by_cases hk : hd.1 = k
    · have h2 : ¬(hd.1 = k2) := by rw [hk]; exact hkk
      simp [alSet, hk, alGet, hkk, h2]
    · simp [alSet, hk, alGet, ih]

theorem alGet_alRemove_self {α : Type} (m : List (String × α)) (k : String) :
    alGet (alRemove m k) k = none := by
  induction m with
  | nil => rfl
  | cons hd t ih =>
    simp only [alRemove, List.filter_cons] at ih ⊢
    by_cases hk : hd.1 = k
    · rw [hk, bne_self_eq_false, if_neg Bool.false_ne_true]
      exact ih
    · rw [if_pos (by simpa using hk)]
      simp only [alGet, if_pos, if_neg hk]
      exact ih

theorem alGet_alRemove_ne {α : Type} (m : List (String × α)) (k k2 : String)
    (h : k2 ≠ k) : alGet (alRemove m k) k2 = alGet m k2 := by
  induction m with
  | nil => rfl
  | cons hd t ih =>
    simp only [alRemove, List.filter_cons] at ih ⊢
    by_cases hk : hd.1 = k
    · have h2 : ¬(hd.1 = k2) := by rw [hk]; exact fun hh => h hh.symm
      rw [hk, bne_self_eq_false, if_neg Bool.false_ne_true, ih, alGet, if_neg h2]
    · rw [if_pos (by simpa using hk)]
      by_cases h2 : hd.1 = k2
      · simp [alGet, h2]
      · simp only [alGet, if_neg h2]
        exact ih

theorem alGet_incRefRecs_ne (rs : List (String × BlobRec)) (h k : String) (t : Nat)
    (hne : k ≠ h) : alGet (incRefRecs rs h t) k = alGet rs k := by
  unfold incRefRecs
  cases alGet rs h with
  | none => exact alGet_alSet_ne rs h k _ hne
  | some r => exact alGet_alSet_ne rs h k _ hne

theorem alGet_incRefRecs_self (rs : List (String × BlobRec)) (h : String) (t : Nat) :
    (alGet (incRefRecs rs h t) h).map BlobRec.refcount =
      some ((((alGet rs h).map BlobRec.refcount).getD 0) + 1) := by
  unfold incRefRecs
  cases alGet rs h with
  | none => simp [alGet_alSet_self]
  | some r => simp [alGet_alSet_self]

/-! ## Char-list lemmas for parent/child paths -/

theorem dropWhile_slashfree {l r : List Char}
    (h : ∀ c ∈ l, c ≠ '/') :
    List.dropWhile (fun c => decide (c ≠ '/')) (l ++ '/' :: r) = '/' :: r := by
  induction l with
  | nil => simp [List.dropWhile]
  | cons a l ih =>
    have ha : a ≠ '/' := h a (List.mem_cons_self a l)
    have hl : ∀ c ∈ l, c ≠ '/' := fun c hc => h c (List.mem_cons_of_mem a hc)
    simp only [List.cons_append, List.dropWhile_cons]
    rw [if_pos (by simpa using ha)]
    exact ih hl

theorem lastSlashPre_append (pre tail : List Char)
    (h : ∀ c ∈ tail, c ≠ '/') :
    lastSlashPre (pre ++ '/' :: tail) = pre := by
  unfold lastSlashPre
  have hrev : (pre ++ '/' :: tail).reverse = tail.reverse ++ '/' :: pre.reverse := by
    simp [List.reverse_append]
  rw [hrev, dropWhile_slashfree (fun c hc => h c (List.mem_reverse.mp hc))]
  simp

theorem dropWhile_slash_split (r : List Char) (hmem : '/' ∈ r) :
    ∃ t p, r = t ++ '/' :: p ∧ (∀ c ∈ t, c ≠ '/') ∧
      List.dropWhile (fun c => decide (c ≠ '/')) r = '/' :: p := by
  induction r with
  | nil => cases hmem
  | cons a r ih =>
    by_cases ha : a = '/'
    · subst ha
      exact ⟨[], r, by simp, by simp, by simp [List.dropWhile_cons]⟩
    · have hmem2 : '/' ∈ r := by
        cases List.mem_cons.mp hmem with
        | inl h => exact absurd h.symm ha
        | inr h => exact h
      obtain ⟨t, p, heq, hfree, hdrop⟩ := ih hmem2
      refine ⟨a :: t, p, by simp [heq], ?_, ?_⟩
      · intro c hc
        cases List.mem_cons.mp hc with
        | inl h => exact h ▸ ha
        | inr h => exact hfree c h
      · simp only [List.dropWhile_cons]
        rw [if_pos (by simpa using ha)]
        exact hdrop

theorem lastSlashPre_split (cs : List Char) (hmem : '/' ∈ cs) :
    ∃ tail, cs = lastSlashPre cs ++ '/' :: tail ∧ ∀ c ∈ tail, c ≠ '/' := by
  obtain ⟨t, p, heq, hfree, hdrop⟩ :=
    dropWhile_slash_split cs.reverse (List.mem_reverse.mpr hmem)
  refine ⟨t.reverse, ?_, fun c hc => hfree c (List.mem_reverse.mp hc)⟩
  have hpre : lastSlashPre cs = p.reverse := by
    unfold lastSlashPre
    rw [hdrop]
  have : cs = p.reverse ++ '/' :: t.reverse := by
    have := congrArg List.reverse heq
    simpa [List.reverse_append] using this
  rw [hpre]
  exact this

/-! ## Trace shape of `writeFile` -/

theorem writeFileAfterBlob_tr (s : FsState) (p : String) (B : Bytes) (t : Nat)
    (H : String) (tr0 : List Ev) :
    ∃ rest, (writeFileAfterBlob s p B t H tr0).tr = tr0 ++ rest ∧
      evNone isBlobWrite rest = true ∧ allBefore isIncRef isDecRef rest = true := by
  unfold writeFileAfterBlob writeFileUpdate writeFileCreate
  cases hnode : alGet s.nodes p with
  | none =>
    cases hpar : alGet s.nodes (parentPath p) with
    | none =>
      refine ⟨[Ev.metaGetNode p, Ev.metaGetNode (parentPath p)], ?_, rfl, rfl⟩
      simp [hpar]
    | some n =>
      refine ⟨[Ev.metaGetNode p, Ev.metaGetNode (parentPath p), Ev.metaCreateNode p,
        Ev.metaIncRef H], ?_, rfl, rfl⟩
      simp [hpar]
  | some n =>
    cases n with
    | dir c m => exact ⟨[Ev.metaGetNode p], by simp, rfl, rfl⟩
    | file oh sz mm cAt mAt =>
      cases hdec : decRefRecs (incRefRecs s.refs H t) oh t with
      | none =>
        refine ⟨[Ev.metaGetNode p, Ev.metaUpdateNode p, Ev.metaIncRef H, Ev.metaDecRef oh],
          ?_, rfl, rfl⟩
        simp [hdec]
      | some pr =>
        by_cases hr : pr.1 = 0
        · refine ⟨[Ev.metaGetNode p, Ev.metaUpdateNode p, Ev.metaIncRef H, Ev.metaDecRef oh,
            Ev.blobDelete oh], ?_, rfl, rfl⟩
          simp [hdec, hr]
        · refine ⟨[Ev.metaGetNode p, Ev.metaUpdateNode p, Ev.metaIncRef H, Ev.metaDecRef oh],
            ?_, rfl, rfl⟩
          simp [hdec, hr]

/-- C9: Refcount-safety ordering inside `writeFile`.  In every execution of
`writeFile` — in particular in every execution that replaces an existing
file's hash — every `incrementBlobRefCount` call precedes every
`decrementBlobRefCount` call, and every blob-store write precedes every
metadata insertion (`createNode`) and every refcount increment. -/
theorem C9_writeFile_refcount_ordering (s : FsState) (p : String) (B : Bytes) (t : Nat) :
    allBefore isBlobWrite isMetaCreate (writeFile s p B t).tr = true ∧
    allBefore isBlobWrite isIncRef (writeFile s p B t).tr = true ∧
    allBefore isIncRef isDecRef (writeFile s p B t).tr = true := by
  unfold writeFile
  by_cases hv : validPath p = true
  · rw [if_pos hv]
    by_cases hb : (alGet s.blobs (sha256hex B)).isSome = true
    · rw [if_pos hb]
      obtain ⟨rest, htr, hnw, hid⟩ :=
        writeFileAfterBlob_tr s p B t (sha256hex B) [Ev.blobExists (sha256hex B)]
      rw [htr]
      exact ⟨allBefore_of_split rfl hnw, allBefore_of_split rfl hnw,
        allBefore_of_none_left rfl hid⟩
    · rw [if_neg hb]
      obtain ⟨rest, htr, hnw, hid⟩ :=
        writeFileAfterBlob_tr { s with blobs := alSet s.blobs (sha256hex B) B }
          p B t (sha256hex B) [Ev.blobExists (sha256hex B), Ev.blobWrite (sha256hex B)]
      rw [htr]
      exact ⟨allBefore_of_split rfl hnw, allBefore_of_split rfl hnw,
        allBefore_of_none_left rfl hid⟩
  · rw [if_neg hv]
    exact ⟨rfl, rfl, rfl⟩

/-! ## Same-content rewrite -/

theorem incRefRecs_get_some (rs : List (String × BlobRec)) (h : String) (t : Nat)
    (r : BlobRec) (hr : alGet rs h = some r) :
    alGet (incRefRecs rs h t) h = some ⟨r.refcount + 1, r.size, r.createdAt, t⟩ := by
  unfold incRefRecs
  rw [hr]
  exact alGet_alSet_self rs h _

/-- The update branch of `writeFile` succeeds whenever the old hash has a
live `blobs`-table row, replaces the node, and touches no blob object other
than (possibly deleting) the old hash. -/
theorem writeFileUpdate_ok (s : FsState) (p : String) (B : Bytes) (t : Nat)
    (H oh mm : String) (cAt : Nat) (tr0 : List Ev) (r : BlobRec)
    (hr : alGet s.refs oh = some r) (hr1 : 1 ≤ r.refcount) :
    (writeFileUpdate s p B t H oh mm cAt tr0).res = Except.ok () ∧
    (writeFileUpdate s p B t H oh mm cAt tr0).st.nodes =
      alSet s.nodes p (NodeT.file H B.length mm cAt t) ∧
    (∀ k, k ≠ oh → alGet (writeFileUpdate s p B t H oh mm cAt tr0).st.blobs k =
      alGet s.blobs k) ∧
    (oh = H → (writeFileUpdate s p B t H oh mm cAt tr0).st.blobs = s.blobs) := by
  unfold writeFileUpdate
  dsimp only []
  by_cases hohH : oh = H
  · subst hohH
    have hinc := incRefRecs_get_some s.refs oh t r hr
    have hdec : decRefRecs (incRefRecs s.refs oh t) oh t =
        some (r.refcount, alSet (incRefRecs s.refs oh t) oh
          ⟨r.refcount, r.size, r.createdAt, t⟩) := by
      unfold decRefRecs
      rw [hinc]
      simp
    rw [hdec]
    dsimp only []
    rw [if_neg (show ¬(r.refcount = 0) by omega)]
    exact ⟨rfl, rfl, fun k hk => rfl, fun _ => rfl⟩
  · have hgoh : alGet (incRefRecs s.refs H t) oh = some r := by
      rw [alGet_incRefRecs_ne s.refs H oh t hohH]
      exact hr
    have hdec : decRefRecs (incRefRecs s.refs H t) oh t =
        some (r.refcount - 1, alSet (incRefRecs s.refs H t) oh
          ⟨r.refcount - 1, r.size, r.createdAt, t⟩) := by
      unfold decRefRecs
      rw [hgoh]
      dsimp only []
      rw [if_neg (show ¬(r.refcount = 0) by omega)]
    rw [hdec]
    dsimp only []
    by_cases hz : r.refcount - 1 = 0
    · rw [if_pos hz]
      exact ⟨rfl, rfl, fun k hk => alGet_alRemove_ne s.blobs oh k hk,
        fun hh => absurd hh hohH⟩
    · rw [if_neg hz]
      exact ⟨rfl, rfl, fun k hk => rfl, fun hh => absurd hh hohH⟩

/-- After the blob phase, `writeFile` succeeds on a file-free path with an
existing parent node, or on an existing FileNode whose hash has a live
`blobs`-table row; the new node carries `sha256(B)` and the blob object for
`sha256(B)` is preserved. -/
theorem writeFileAfterBlob_ok (s : FsState) (p : String) (B : Bytes) (t : Nat)
    (tr0 : List Ev)
    (hblob : alGet s.blobs (sha256hex B) = some B)
    (hnode : (alGet s.nodes p = none ∧ (alGet s.nodes (parentPath p)).isSome = true) ∨
      (∃ oh sz mm cA mA r, alGet s.nodes p = some (NodeT.file oh sz mm cA mA) ∧
        alGet s.refs oh = some r ∧ 1 ≤ r.refcount)) :
    (writeFileAfterBlob s p B t (sha256hex B) tr0).res = Except.ok () ∧
    alGet (writeFileAfterBlob s p B t (sha256hex B) tr0).st.blobs (sha256hex B) = some B ∧
    ∃ sz mm cA mA, alGet (writeFileAfterBlob s p B t (sha256hex B) tr0).st.nodes p =
      some (NodeT.file (sha256hex B) sz mm cA mA) := by
  unfold writeFileAfterBlob
  rcases hnode with ⟨hn, hp⟩ | ⟨oh, sz, mm, cA, mA, r, hn, hr, hr1⟩
  · simp only [hn]
    unfold writeFileCreate
    dsimp only []
    obtain ⟨pn, hpn⟩ := Option.isSome_iff_exists.mp hp
    rw [hpn]
    dsimp only []
    exact ⟨rfl, hblob, B.length, (mimeLookup p).getD "application/octet-stream", t, t,
      alGet_alSet_self s.nodes p _⟩
  · simp only [hn]
    obtain ⟨hres, hnodes, hother, hsame⟩ :=
      writeFileUpdate_ok s p B t (sha256hex B) oh mm cA
        (tr0 ++ [Ev.metaGetNode p]) r hr hr1
    refine ⟨hres, ?_, B.length, mm, cA, t, ?_⟩
    · by_cases hohH : oh = sha256hex B
      · rw [hsame hohH]
        exact hblob
      · rw [hother (sha256hex B) (fun hh => hohH hh.symm)]
        exact hblob
    · rw [hnodes]
      exact alGet_alSet_self s.nodes p _

/-- C1: Round-trip.  For a valid path whose parent node exists (or which
already holds a FileNode with a live refcount), `writeFile(p, B)` succeeds,
a subsequent `readFile(p)` returns exactly `B`, and the FileNode stored at
`p` carries the lowercase-hex SHA-256 of `B`.  The collision-freedom
hypothesis says the blob store does not already bind `sha256(B)` to
different bytes (content addressability, §3 of the spec). -/
theorem C1_write_read_roundtrip (s : FsState) (p : String) (B : Bytes) (t : Nat)
    (hv : validPath p = true)
    (hcf : ∀ C, alGet s.blobs (sha256hex B) = some C → C = B)
    (hnode : (alGet s.nodes p = none ∧ (alGet s.nodes (parentPath p)).isSome = true) ∨
      (∃ oh sz mm cA mA r, alGet s.nodes p = some (NodeT.file oh sz mm cA mA) ∧
        alGet s.refs oh = some r ∧ 1 ≤ r.refcount)) :
    (writeFile s p B t).res = Except.ok () ∧
    (readFile (writeFile s p B t).st p).res = Except.ok B ∧
    ∃ sz mm cA mA, alGet (writeFile s p B t).st.nodes p =
      some (NodeT.file (sha256hex B) sz mm cA mA) := by
  have hmain : (writeFile s p B t).res = Except.ok () ∧
      alGet (writeFile s p B t).st.blobs (sha256hex B) = some B ∧
      ∃ sz mm cA mA, alGet (writeFile s p B t).st.nodes p =
        some (NodeT.file (sha256hex B) sz mm cA mA) := by
    unfold writeFile
    rw [if_pos hv]
    by_cases hb : (alGet s.blobs (sha256hex B)).isSome = true
    · rw [if_pos hb]
      obtain ⟨C, hC⟩ := Option.isSome_iff_exists.mp hb
      have hCB := hcf C hC
      rw [hCB] at hC
      exact writeFileAfterBlob_ok s p B t _ hC hnode
    · rw [if_neg hb]
      refine writeFileAfterBlob_ok _ p B t _ ?_ hnode
      exact alGet_alSet_self s.blobs (sha256hex B) B
  obtain ⟨hok, hblob2, sz, mm, cA, mA, hnode2⟩ := hmain
  refine ⟨hok, ?_, sz, mm, cA, mA, hnode2⟩
  unfold readFile
  rw [hnode2]
  dsimp only []
  rw [hblob2]

/-- C1 witness: the literal scenario — on a root-only store,
`writeFile("/hello.txt", "Hello World")` then `readFile` returns
`"Hello World"`, and the stored node's hash is the expected constant
`a591…146e`. -/
theorem C1_write_read_roundtrip_witness :
    validPath "/hello.txt" = true ∧
    ((writeFile stRoot "/hello.txt" hwBytes 1).res = Except.ok () ∧
     (readFile (writeFile stRoot "/hello.txt" hwBytes 1).st "/hello.txt").res =
       Except.ok hwBytes ∧
     ∃ sz mm cA mA, alGet (writeFile stRoot "/hello.txt" hwBytes 1).st.nodes "/hello.txt" =
       some (NodeT.file (sha256hex hwBytes) sz mm cA mA)) ∧
    alGet (writeFile stRoot "/hello.txt" hwBytes 1).st.nodes "/hello.txt" =
      some (NodeT.file "a591a6d40bf420404a011733cfb7b190d62c65bf0bcda32b57b277d9ad9f146e"
        11 "text/plain" 1 1) :=
  ⟨rfl,
    C1_write_read_roundtrip stRoot "/hello.txt" hwBytes 1 rfl
      (fun C h => by cases h)
      (Or.inl ⟨rfl, rfl⟩),
    rfl⟩

/-- C8 amended: rewriting a file with content whose hash it already holds
goes through the general update branch: it updates the node (new
`modifiedAt`, same hash), and it does call `incrementBlobRefCount(H)` and
then `decrementBlobRefCount(H)`; the two calls cancel, so the refcount
value, the blob store and the node count are unchanged — only the trace
shows the calls the claim says are absent. -/
theorem C8_same_hash_rewrite_amended (s : FsState) (p : String) (B : Bytes) (t : Nat)
    (sz cA mA : Nat) (mm : String) (r : BlobRec) (C : Bytes)
    (hv : validPath p = true)
    (hnode : alGet s.nodes p = some (NodeT.file (sha256hex B) sz mm cA mA))
    (href : alGet s.refs (sha256hex B) = some r)
    (hr1 : 1 ≤ r.refcount)
    (hblob : alGet s.blobs (sha256hex B) = some C) :
    (writeFile s p B t).res = Except.ok () ∧
    (writeFile s p B t).st.blobs = s.blobs ∧
    alGet (writeFile s p B t).st.nodes p =
      some (NodeT.file (sha256hex B) B.length mm cA t) ∧
    (alGet (writeFile s p B t).st.refs (sha256hex B)).map BlobRec.refcount =
      some r.refcount ∧
    Ev.metaIncRef (sha256hex B) ∈ (writeFile s p B t).tr ∧
    Ev.metaDecRef (sha256hex B) ∈ (writeFile s p B t).tr := by
  unfold writeFile
  rw [if_pos hv, if_pos (by rw [hblob]; rfl)]
  unfold writeFileAfterBlob
  simp only [hnode]
  unfold writeFileUpdate
  dsimp only []
  have hinc := incRefRecs_get_some s.refs (sha256hex B) t r href
  have hdec : decRefRecs (incRefRecs s.refs (sha256hex B) t) (sha256hex B) t =
      some (r.refcount, alSet (incRefRecs s.refs (sha256hex B) t) (sha256hex B)
        ⟨r.refcount, r.size, r.createdAt, t⟩) := by
    unfold decRefRecs
    rw [hinc]
    simp
  rw [hdec]
  dsimp only []
  rw [if_neg (show ¬(r.refcount = 0) by omega)]
  refine ⟨rfl, rfl, ?_, ?_, ?_, ?_⟩
  · exact alGet_alSet_self s.nodes p _
  · rw [alGet_alSet_self]
    rfl
  · simp
  · simp

/-- C8 witness: the amended statement at the second `writeFile` of the same
content `"data"` at `"/f.txt"`: one FileNode remains, refcount stays 1,
`modifiedAt` becomes the second call's time, blobs unchanged. -/
theorem C8_same_hash_rewrite_amended_witness :
    1 ≤ (1 : Nat) ∧
    ((writeFile stOneFile "/f.txt" dataBytes 2).res = Except.ok () ∧
     (writeFile stOneFile "/f.txt" dataBytes 2).st.blobs = stOneFile.blobs ∧
     alGet (writeFile stOneFile "/f.txt" dataBytes 2).st.nodes "/f.txt" =
       some (NodeT.file (sha256hex dataBytes) dataBytes.length "text/plain" 1 2) ∧
     (alGet (writeFile stOneFile "/f.txt" dataBytes 2).st.refs
        (sha256hex dataBytes)).map BlobRec.refcount = some 1 ∧
     Ev.metaIncRef (sha256hex dataBytes) ∈ (writeFile stOneFile "/f.txt" dataBytes 2).tr ∧
     Ev.metaDecRef (sha256hex dataBytes) ∈ (writeFile stOneFile "/f.txt" dataBytes 2).tr) :=
  ⟨Nat.le_refl 1,
    C8_same_hash_rewrite_amended stOneFile "/f.txt" dataBytes 2 4 1 1 "text/plain"
      ⟨1, 0, 1, 1⟩ dataBytes rfl rfl rfl (Nat.le_refl 1) rfl⟩

/-- C8 counterexample: the second same-content `writeFile` does make
`incrementBlobRefCount` and `decrementBlobRefCount` calls, contradicting
the claim that no refcount call is performed. -/
theorem C8_refcount_calls_counterexample :
    Ev.metaIncRef (sha256hex dataBytes) ∈ (writeFile stOneFile "/f.txt" dataBytes 2).tr ∧
    Ev.metaDecRef (sha256hex dataBytes) ∈ (writeFile stOneFile "/f.txt" dataBytes 2).tr := by
  constructor <;> decide

/-! ## listChildren: membership and ordering -/

theorem data_eq_nil_iff (d : String) : d.data = [] ↔ d = "" := by
  constructor
  · intro h
    cases d
    simp_all
  · intro h
    rw [h]

/-- On a pattern whose body is free of the `LIKE` metacharacters, the
query's `body ++ "%"` pattern accepts exactly the strings with `body` as a
literal prefix. -/
theorem likeMatch_append_percent (qs : List Char) :
    ∀ (hq : ∀ c ∈ qs, c ≠ '%' ∧ c ≠ '_' ∧ c ≠ '\\') (s : List Char),
      likeMatch (qs ++ ['%']) s = List.isPrefixOf qs s := by
  induction qs with
  | nil =>
    intro _ s
    have hpre : List.isPrefixOf ([] : List Char) s = true :=
      List.isPrefixOf_iff_prefix.mpr List.nil_prefix
    rw [List.nil_append, hpre]
    simp only [likeMatch]
    rw [if_pos trivial, List.any_eq_true]
    refine ⟨[], (List.mem_tails [] s).mpr ?_, rfl⟩
    exact List.nil_suffix
  | cons c qs ih =>
    intro hq s
    have hc := hq c (List.mem_cons_self c qs)
    rw [List.cons_append, likeMatch.eq_def]
    dsimp only []
    rw [if_neg hc.1, if_neg hc.2.1, if_neg hc.2.2]
    cases s with
    | nil => rfl
    | cons c2 s2 =>
      dsimp only []
      rw [ih (fun x hx => hq x (List.mem_cons_of_mem c hx)) s2]
      by_cases hcc : c2 = c
      · subst hcc
        simp [List.isPrefixOf]
      · have hcc2 : ¬(c = c2) := fun h => hcc h.symm
        simp [List.isPrefixOf, hcc, hcc2]

/-- For a non-empty directory path free of the `LIKE` metacharacters, the
`LIST_CHILDREN` row filter holds exactly for the nodes whose parent path
(as the service computes it) is `d` and whose slash count matches the
query's depth value. -/
theorem childFilter_iff (d p : String) (n : NodeT) (hd : d ≠ "")
    (hq : ∀ c ∈ d.data, c ≠ '%' ∧ c ≠ '_' ∧ c ≠ '\\') :
    childFilter d (p, n) = true ↔
      (p ≠ d ∧ parentPath p = d ∧ slashCount p = childDepth d) := by
  unfold childFilter
  dsimp only []
  rw [Bool.and_eq_true, Bool.and_eq_true, bne_iff_ne, beq_iff_eq]
  by_cases hroot : d = "/"
  · subst hroot
    unfold childPrefix childDepth
    rw [if_pos rfl, if_pos rfl]
    rw [show ("/" : String).data = ['/'] from rfl,
      likeMatch_append_percent ['/'] (by decide) p.data,
      List.isPrefixOf_iff_prefix]
    constructor
    · rintro ⟨⟨hpre, hne⟩, hcount⟩
      refine ⟨hne, ?_, hcount⟩
      obtain ⟨tail, htail⟩ := hpre
      have hdata : p.data = '/' :: tail := by
        rw [← htail]
        rfl
      have htail0 : tail.count '/' = 0 := by
        unfold slashCount at hcount
        rw [hdata, List.count_cons] at hcount
        simp at hcount
        omega
      have hfree : ∀ c ∈ tail, c ≠ '/' := by
        intro c hc hcc
        subst hcc
        rw [List.count_eq_zero] at htail0
        exact htail0 hc
      unfold parentPath
      dsimp only []
      rw [hdata, show ('/' :: tail) = [] ++ '/' :: tail from rfl,
        lastSlashPre_append [] tail hfree]
      rfl
    · rintro ⟨hne, hpar, hcount⟩
      refine ⟨⟨?_, hne⟩, hcount⟩
      unfold slashCount at hcount
      have hmem : '/' ∈ p.data := by
        rw [← List.count_pos_iff]
        omega
      obtain ⟨tail, heq, hfree⟩ := lastSlashPre_split p.data hmem
      by_cases hpre0 : lastSlashPre p.data = []
      · rw [hpre0] at heq
        exact ⟨tail, by rw [heq]; rfl⟩
      · exfalso
        unfold parentPath at hpar
        dsimp only [] at hpar
        rw [if_neg hpre0] at hpar
        have hsl : lastSlashPre p.data = ['/'] := by
          have h2 := congrArg String.data hpar
          simpa using h2
        rw [heq, hsl, List.count_append, List.count_cons, List.count_cons] at hcount
        simp at hcount
  · unfold childPrefix childDepth
    rw [if_neg hroot, if_neg hroot]
    have hq2 : ∀ c ∈ d.data ++ ['/'], c ≠ '%' ∧ c ≠ '_' ∧ c ≠ '\\' := by
      intro c hc
      rcases List.mem_append.mp hc with h | h
      · exact hq c h
      · simp at h
        subst h
        exact ⟨by decide, by decide, by decide⟩
    rw [String.data_append, show ("/" : String).data = ['/'] from rfl,
      likeMatch_append_percent (d.data ++ ['/']) hq2 p.data,
      List.isPrefixOf_iff_prefix]
    constructor
    · rintro ⟨⟨hpre, hne⟩, hcount⟩
      refine ⟨hne, ?_, hcount⟩
      obtain ⟨tail, htail⟩ := hpre
      have hdata : p.data = d.data ++ '/' :: tail := by
        rw [← htail]
        simp
      have htail0 : tail.count '/' = 0 := by
        unfold slashCount at hcount
        rw [hdata, List.count_append, List.count_cons] at hcount
        simp at hcount
        omega
      have hfree : ∀ c ∈ tail, c ≠ '/' := by
        intro c hc hcc
        subst hcc
        rw [List.count_eq_zero] at htail0
        exact htail0 hc
      unfold parentPath
      dsimp only []
      rw [hdata, lastSlashPre_append d.data tail hfree]
      rw [if_neg (fun hh => hd ((data_eq_nil_iff d).mp hh))]
    · rintro ⟨hne, hpar, hcount⟩
      refine ⟨⟨?_, hne⟩, hcount⟩
      unfold slashCount at hcount
      have hmem : '/' ∈ p.data := by
        rw [← List.count_pos_iff]
        omega
      obtain ⟨tail, heq, hfree⟩ := lastSlashPre_split p.data hmem
      unfold parentPath at hpar
      dsimp only [] at hpar
      by_cases hpre0 : lastSlashPre p.data = []
      · rw [if_pos hpre0] at hpar
        exact absurd hpar.symm hroot
      · rw [if_neg hpre0] at hpar
        have hdd : lastSlashPre p.data = d.data := by
          have h2 := congrArg String.data hpar
          simpa using h2
        refine ⟨tail, ?_⟩
        rw [heq, hdd]
        simp

/-- C6 amended: the rows of `listChildren(d)` are selected by the unescaped
`LIKE` pattern `d + "/%"`, in which `_`, `%` and `\\` inside `d` stay live
metacharacters; for every non-empty directory path `d` free of those
metacharacters, `listChildren(d)` returns exactly the stored nodes `p ≠ d`
whose parent path equals `d` and whose slash count equals the query depth
(1 for the root, `slashCount d + 1` otherwise).  The result is ordered by
`type DESC, path ASC` — that is, files before directories (not directories
before files), and ascending path within each group.  (For a path
containing a wildcard the query also returns rows under other matching
directories, as the counterexample shows for `"/my_dir"`.) -/
theorem C6_listChildren_amended (nodes : List (String × NodeT)) (d : String)
    (hd : d ≠ "") (hq : ∀ c ∈ d.data, c ≠ '%' ∧ c ≠ '_' ∧ c ≠ '\\') :
    (∀ p n, ((p, n) ∈ listChildrenQ nodes d ↔
      ((p, n) ∈ nodes ∧ p ≠ d ∧ parentPath p = d ∧ slashCount p = childDepth d))) ∧
    List.Sorted childLE (listChildrenQ nodes d) := by
  constructor
  · intro p n
    unfold listChildrenQ
    rw [List.mem_insertionSort, List.mem_filter, childFilter_iff d p n hd hq]
  · exact List.sorted_insertionSort childLE _

/-- C6 witness: the amended statement at a store holding `/`, the file
`/a.txt` and the directory `/b`, listing the children of the root (a
metacharacter-free path). -/
theorem C6_listChildren_amended_witness :
    (("/" : String) ≠ "" ∧ ∀ c ∈ ("/" : String).data, c ≠ '%' ∧ c ≠ '_' ∧ c ≠ '\\') ∧
    ((("/a.txt", NodeT.file "h" 1 "text/plain" 0 0) ∈ listChildrenQ exNodes "/" ↔
      (("/a.txt", NodeT.file "h" 1 "text/plain" 0 0) ∈ exNodes ∧ "/a.txt" ≠ "/" ∧
        parentPath "/a.txt" = "/" ∧ slashCount "/a.txt" = childDepth "/")) ∧
     List.Sorted childLE (listChildrenQ exNodes "/")) :=
  ⟨⟨by decide, by decide⟩,
   (C6_listChildren_amended exNodes "/" (by decide) (by decide)).1 "/a.txt"
     (NodeT.file "h" 1 "text/plain" 0 0),
   (C6_listChildren_amended exNodes "/" (by decide) (by decide)).2⟩

/-- C6 counterexample: on a store with the file `/a.txt` and the directory
`/b` under the root, `listChildren("/")` is not ordered directories-first —
the `ORDER BY type DESC` of the query puts the file row first — and the
membership half of the claim fails as well: the `_` of `"/my_dir"` is a
live `LIKE` wildcard, so `listChildren("/my_dir")` returns `/myXdir/f`,
whose parent path is not `"/my_dir"`. -/
theorem C6_ordering_counterexample :
    ¬ List.Sorted specChildLE (listChildrenQ exNodes "/") ∧
    ("/myXdir/f", NodeT.file "h" 1 "text/plain" 0 0) ∈ listChildrenQ wildNodes "/my_dir" ∧
    parentPath "/myXdir/f" ≠ "/my_dir" :=
  ⟨by decide, by decide, by decide⟩

/-! ## copyFile / moveFile and the destination path -/

/-- `copyFile` under a readable source literally becomes a `writeFile` of
the read bytes, preceded by the read's store calls. -/
theorem copyFile_eq_write (s : FsState) (src dst : String) (t : Nat)
    (h mm : String) (sz cA mA : Nat) (C : Bytes)
    (hsrc : alGet s.nodes src = some (NodeT.file h sz mm cA mA))
    (hblob : alGet s.blobs h = some C) :
    copyFile s src dst t =
      ⟨(writeFile s dst C t).res, (writeFile s dst C t).st,
        [Ev.metaGetNode src, Ev.blobRead h] ++ (writeFile s dst C t).tr⟩ := by
  have hread : readFile s src = ⟨Except.ok C, s, [Ev.metaGetNode src, Ev.blobRead h]⟩ := by
    unfold readFile
    rw [hsrc]
    dsimp only []
    rw [hblob]
    rfl
  unfold copyFile
  dsimp only []
  rw [hread]

/-- The blob phase of `writeFile` on bytes that hash to an already-present
blob leaves the store untouched and proceeds to the node phase. -/
theorem writeFile_blob_present (s : FsState) (dst : String) (C : Bytes) (h : String)
    (t : Nat) (hint : sha256hex C = h) (hblob : alGet s.blobs h = some C)
    (hv : validPath dst = true) :
    writeFile s dst C t = writeFileAfterBlob s dst C t h [Ev.blobExists h] := by
  unfold writeFile
  rw [if_pos hv]
  dsimp only []
  rw [hint]
  rw [if_pos (by rw [hblob]; rfl)]

/-- A DirectoryNode at the target path makes the node phase of `writeFile`
fail with Conflict. -/
theorem writeFileAfterBlob_dir (s : FsState) (p : String) (B : Bytes) (t : Nat)
    (H : String) (tr0 : List Ev) (c m : Nat)
    (hdst : alGet s.nodes p = some (NodeT.dir c m)) :
    writeFileAfterBlob s p B t H tr0 =
      ⟨Except.error Err.fileAlreadyExists, s, tr0 ++ [Ev.metaGetNode p]⟩ := by
  unfold writeFileAfterBlob
  rw [hdst]

/-- C3 amended: only a DirectoryNode at the destination makes `copyFile`
and `moveFile` fail with Conflict; a pre-existing FileNode at the
destination is silently overwritten through `writeFile`'s update branch, so
destination overwrite of a file is a permitted transition. -/
theorem C3_copy_destination_amended (s : FsState) (src dst : String) (t : Nat)
    (h mm : String) (sz cA mA : Nat) (C : Bytes)
    (hsrc : alGet s.nodes src = some (NodeT.file h sz mm cA mA))
    (hblob : alGet s.blobs h = some C)
    (hint : sha256hex C = h)
    (hv : validPath dst = true) :
    (∀ c m, alGet s.nodes dst = some (NodeT.dir c m) →
      (copyFile s src dst t).res = Except.error Err.fileAlreadyExists ∧
      (copyFile s src dst t).st.nodes = s.nodes ∧
      (moveFile s src dst t).res = Except.error Err.fileAlreadyExists ∧
      (moveFile s src dst t).st.nodes = s.nodes) ∧
    (∀ oh sz2 mm2 cA2 mA2 r, alGet s.nodes dst = some (NodeT.file oh sz2 mm2 cA2 mA2) →
      alGet s.refs oh = some r → 1 ≤ r.refcount →
      (copyFile s src dst t).res = Except.ok () ∧
      alGet (copyFile s src dst t).st.nodes dst =
        some (NodeT.file h C.length mm2 cA2 t)) := by
  have hcw := copyFile_eq_write s src dst t h mm sz cA mA C hsrc hblob
  have hwf := writeFile_blob_present s dst C h t hint hblob hv
  constructor
  · intro c m hdst
    have hwrite : writeFile s dst C t =
        ⟨Except.error Err.fileAlreadyExists, s, [Ev.blobExists h, Ev.metaGetNode dst]⟩ := by
      rw [hwf, writeFileAfterBlob_dir s dst C t h [Ev.blobExists h] c m hdst]
      rfl
    have hcopy : copyFile s src dst t =
        ⟨Except.error Err.fileAlreadyExists, s,
          [Ev.metaGetNode src, Ev.blobRead h, Ev.blobExists h, Ev.metaGetNode dst]⟩ := by
      rw [hcw, hwrite]
      rfl
    have hmove : moveFile s src dst t =
        ⟨Except.error Err.fileAlreadyExists, s,
          [Ev.metaGetNode src, Ev.blobRead h, Ev.blobExists h, Ev.metaGetNode dst]⟩ := by
      unfold moveFile
      dsimp only []
      rw [hcopy]
    rw [hcopy, hmove]
    exact ⟨rfl, rfl, rfl, rfl⟩
  · intro oh sz2 mm2 cA2 mA2 r hdst hr hr1
    have hwab : writeFileAfterBlob s dst C t h [Ev.blobExists h] =
        writeFileUpdate s dst C t h oh mm2 cA2
          ([Ev.blobExists h] ++ [Ev.metaGetNode dst]) := by
      unfold writeFileAfterBlob
      rw [hdst]
    obtain ⟨hres, hnodes, _, _⟩ :=
      writeFileUpdate_ok s dst C t h oh mm2 cA2
        ([Ev.blobExists h] ++ [Ev.metaGetNode dst]) r hr hr1
    constructor
    · rw [hcw]
      dsimp only []
      rw [hwf, hwab]
      exact hres
    · rw [hcw]
      dsimp only []
      rw [hwf, hwab, hnodes]
      exact alGet_alSet_self s.nodes dst _

/-- C3 witness: on a store with source file `/a`, destination directory
`/d` and destination file `/b`: copy/move onto the directory fail with
Conflict, while copy onto the file succeeds and overwrites it. -/
theorem C3_copy_destination_amended_witness :
    ((copyFile stCopy "/a" "/d" 5).res = Except.error Err.fileAlreadyExists ∧
     (copyFile stCopy "/a" "/d" 5).st.nodes = stCopy.nodes ∧
     (moveFile stCopy "/a" "/d" 5).res = Except.error Err.fileAlreadyExists ∧
     (moveFile stCopy "/a" "/d" 5).st.nodes = stCopy.nodes) ∧
    ((copyFile stCopy "/a" "/b" 5).res = Except.ok () ∧
     alGet (copyFile stCopy "/a" "/b" 5).st.nodes "/b" =
       some (NodeT.file v1Hash v1Bytes.length "application/octet-stream" 1 5)) :=
  ⟨(C3_copy_destination_amended stCopy "/a" "/d" 5 v1Hash "application/octet-stream"
      2 1 1 v1Bytes rfl rfl rfl rfl).1 1 1 rfl,
   (C3_copy_destination_amended stCopy "/a" "/b" 5 v1Hash "application/octet-stream"
      2 1 1 v1Bytes rfl rfl rfl rfl).2 v2Hash 2 "application/octet-stream" 1 1
      ⟨1, 0, 1, 1⟩ rfl rfl (Nat.le_refl 1)⟩

/-- C3 counterexample: with a FileNode already at the destination `/b`,
`copyFile("/a", "/b")` and `moveFile("/a", "/b")` do not fail with
Conflict — they succeed and overwrite the destination node's hash. -/
theorem C3_overwrite_counterexample :
    (copyFile stCopy "/a" "/b" 5).res = Except.ok () ∧
    alGet (copyFile stCopy "/a" "/b" 5).st.nodes "/b" =
      some (NodeT.file v1Hash 2 "application/octet-stream" 1 5) ∧
    (moveFile stCopy "/a" "/b" 5).res = Except.ok () ∧
    alGet (moveFile stCopy "/a" "/b" 5).st.nodes "/a" = none ∧
    alGet (moveFile stCopy "/a" "/b" 5).st.nodes "/b" =
      some (NodeT.file v1Hash 2 "application/octet-stream" 1 5) :=
  ⟨rfl, rfl, rfl, rfl, rfl⟩

/-! ## copyFile is not free of blob-store calls -/

/-- C2 amended: `copyFile(src, dst)` to a fresh destination creates a
FileNode at `dst` with the source's hash and byte length and increments the
blob refcount, and it performs no `blob.write` — but it is not metadata
only: it reads the source blob (`blob.read`) and probes it (`blob.exists`),
and the new node's mimeType is recomputed from the destination path. -/
theorem C2_copy_no_blob_write_amended (s : FsState) (src dst : String) (t : Nat)
    (h mm : String) (sz cA mA : Nat) (C : Bytes) (r : BlobRec)
    (hsrc : alGet s.nodes src = some (NodeT.file h sz mm cA mA))
    (hblob : alGet s.blobs h = some C)
    (hint : sha256hex C = h)
    (hv : validPath dst = true)
    (hdst : alGet s.nodes dst = none)
    (hpar : (alGet s.nodes (parentPath dst)).isSome = true)
    (href : alGet s.refs h = some r) :
    (copyFile s src dst t).res = Except.ok () ∧
    alGet (copyFile s src dst t).st.nodes dst =
      some (NodeT.file h C.length ((mimeLookup dst).getD "application/octet-stream") t t) ∧
    (alGet (copyFile s src dst t).st.refs h).map BlobRec.refcount =
      some (r.refcount + 1) ∧
    (copyFile s src dst t).st.blobs = s.blobs ∧
    evNone isBlobWrite (copyFile s src dst t).tr = true ∧
    Ev.blobRead h ∈ (copyFile s src dst t).tr ∧
    Ev.blobExists h ∈ (copyFile s src dst t).tr := by
  have hcw := copyFile_eq_write s src dst t h mm sz cA mA C hsrc hblob
  have hwf := writeFile_blob_present s dst C h t hint hblob hv
  obtain ⟨pn, hpn⟩ := Option.isSome_iff_exists.mp hpar
  have hcreate : writeFileAfterBlob s dst C t h [Ev.blobExists h] =
      ⟨Except.ok (),
        ⟨alSet s.nodes dst (NodeT.file h C.length
            ((mimeLookup dst).getD "application/octet-stream") t t),
          s.blobs, incRefRecs s.refs h t⟩,
        [Ev.blobExists h, Ev.metaGetNode dst, Ev.metaGetNode (parentPath dst),
          Ev.metaCreateNode dst, Ev.metaIncRef h]⟩ := by
    unfold writeFileAfterBlob writeFileCreate
    rw [hdst]
    dsimp only []
    rw [hpn]
    rfl
  have hfull : copyFile s src dst t =
      ⟨Except.ok (),
        ⟨alSet s.nodes dst (NodeT.file h C.length
            ((mimeLookup dst).getD "application/octet-stream") t t),
          s.blobs, incRefRecs s.refs h t⟩,
        [Ev.metaGetNode src, Ev.blobRead h, Ev.blobExists h, Ev.metaGetNode dst,
          Ev.metaGetNode (parentPath dst), Ev.metaCreateNode dst, Ev.metaIncRef h]⟩ := by
    rw [hcw, hwf, hcreate]
    rfl
  rw [hfull]
  refine ⟨rfl, alGet_alSet_self s.nodes dst _, ?_, rfl, rfl, by simp, by simp⟩
  rw [incRefRecs_get_some s.refs h t r href]
  rfl

/-- C2 witness: the literal scenario — `writeFile("/a.txt", "v1")` then
`copyFile("/a.txt", "/b.txt")`: both nodes share the hash, the refcount is
2, the copy makes no `blob.write` call (so `blob.write` was called exactly
once in total) but does call `blob.read` and `blob.exists`. -/
theorem C2_copy_no_blob_write_amended_witness :
    ((copyFile stSrcTxt "/a.txt" "/b.txt" 2).res = Except.ok () ∧
     alGet (copyFile stSrcTxt "/a.txt" "/b.txt" 2).st.nodes "/b.txt" =
       some (NodeT.file v1Hash v1Bytes.length
         ((mimeLookup "/b.txt").getD "application/octet-stream") 2 2) ∧
     (alGet (copyFile stSrcTxt "/a.txt" "/b.txt" 2).st.refs v1Hash).map BlobRec.refcount =
       some 2 ∧
     (copyFile stSrcTxt "/a.txt" "/b.txt" 2).st.blobs = stSrcTxt.blobs ∧
     evNone isBlobWrite (copyFile stSrcTxt "/a.txt" "/b.txt" 2).tr = true ∧
     Ev.blobRead v1Hash ∈ (copyFile stSrcTxt "/a.txt" "/b.txt" 2).tr ∧
     Ev.blobExists v1Hash ∈ (copyFile stSrcTxt "/a.txt" "/b.txt" 2).tr) ∧
    ((writeFile stRoot "/a.txt" v1Bytes 1).tr ++
      (copyFile stSrcTxt "/a.txt" "/b.txt" 2).tr).countP isBlobWrite = 1 :=
  ⟨C2_copy_no_blob_write_amended stSrcTxt "/a.txt" "/b.txt" 2 v1Hash "text/plain"
      2 1 1 v1Bytes ⟨1, 0, 1, 1⟩ rfl rfl rfl rfl rfl rfl rfl,
   by decide⟩

/-- C2 counterexample: the copy does perform blob-store calls — `blob.read`
and `blob.exists` both appear in its trace — and the copied node's mimeType
is computed from the destination path (`image/png`), not carried over from
the source (`text/plain`), contradicting the no-blob-I/O / same-mimeType
claim. -/
theorem C2_blob_calls_counterexample :
    Ev.blobRead v1Hash ∈ (copyFile stSrcTxt "/a.txt" "/b.png" 2).tr ∧
    Ev.blobExists v1Hash ∈ (copyFile stSrcTxt "/a.txt" "/b.png" 2).tr ∧
    alGet (copyFile stSrcTxt "/a.txt" "/b.png" 2).st.nodes "/b.png" =
      some (NodeT.file v1Hash 2 "image/png" 2 2) ∧
    alGet stSrcTxt.nodes "/a.txt" = some (NodeT.file v1Hash 2 "text/plain" 1 1) :=
  ⟨by decide, by decide, rfl, rfl⟩

/-! ## Parent checks: existence is required, directoriness is not -/

/-- C5 amended: `createDirectory` and `writeFile` refuse to create a node
whose parent path has no node at all — they fail with DirectoryNotFound and
leave the metadata unchanged — but they only test existence, not kind: a
FileNode at the parent path is accepted, so a node's parent need not be a
DirectoryNode. -/
theorem C5_parent_existence_amended (s : FsState) (p : String) (B : Bytes) (t : Nat)
    (hv : validPath p = true) (hroot : p ≠ "/")
    (hnone : alGet s.nodes p = none)
    (hpar : alGet s.nodes (parentPath p) = none) :
    (createDirectory s p t).res = Except.error Err.directoryNotFound ∧
    (createDirectory s p t).st = s ∧
    (writeFile s p B t).res = Except.error Err.directoryNotFound ∧
    (writeFile s p B t).st.nodes = s.nodes := by
  have hcd : createDirectory s p t =
      ⟨Except.error Err.directoryNotFound, s, [Ev.metaGetNode p, Ev.metaGetNode (parentPath p)]⟩ := by
    unfold createDirectory
    rw [if_pos hv]
    simp only [hnone, if_neg hroot, hpar]
    rfl
  have hwf : (writeFile s p B t).res = Except.error Err.directoryNotFound ∧
      (writeFile s p B t).st.nodes = s.nodes := by
    unfold writeFile
    rw [if_pos hv]
    by_cases hb : (alGet s.blobs (sha256hex B)).isSome = true
    · rw [if_pos hb]
      unfold writeFileAfterBlob writeFileCreate
      simp [hnone, hpar]
    · rw [if_neg hb]
      unfold writeFileAfterBlob writeFileCreate
      simp [hnone, hpar]
  exact ⟨by rw [hcd], by rw [hcd], hwf.1, hwf.2⟩

/-- C5 witness: the amended statement at `"/a/b"` on the root-only store,
whose parent `"/a"` is absent. -/
theorem C5_parent_existence_amended_witness :
    validPath "/a/b" = true ∧ alGet stRoot.nodes "/a/b" = none ∧
    alGet stRoot.nodes (parentPath "/a/b") = none ∧
    ((createDirectory stRoot "/a/b" 2).res = Except.error Err.directoryNotFound ∧
     (createDirectory stRoot "/a/b" 2).st = stRoot ∧
     (writeFile stRoot "/a/b" dataBytes 2).res = Except.error Err.directoryNotFound ∧
     (writeFile stRoot "/a/b" dataBytes 2).st.nodes = stRoot.nodes) :=
  ⟨rfl, rfl, rfl,
    C5_parent_existence_amended stRoot "/a/b" dataBytes 2 rfl (by decide) rfl rfl⟩

/-- C5 counterexample: `writeFile("/a/b", ...)` succeeds although the node
at the parent path `"/a"` is a FileNode, leaving a file whose parent is not
a DirectoryNode — the claimed parent-existence invariant and the claimed
refusal both fail. -/
theorem C5_file_parent_counterexample :
    (writeFile stFileParent "/a/b" dataBytes 2).res = Except.ok () ∧
    alGet (writeFile stFileParent "/a/b" dataBytes 2).st.nodes "/a" =
      some (NodeT.file v1Hash 2 "application/octet-stream" 1 1) ∧
    alGet (writeFile stFileParent "/a/b" dataBytes 2).st.nodes "/a/b" =
      some (NodeT.file (sha256hex dataBytes) 4 "application/octet-stream" 2 2) :=
  ⟨rfl, rfl, rfl⟩

/-! ## deleteDirectory: emptiness is required, the root is not special -/

/-- C7 amended: `deleteDirectory` requires an existing DirectoryNode and an
empty result from the `LIKE`-based child query — when the query returns a
row the call fails with Conflict (DirectoryNotEmptyError) and nothing
changes, and a live wildcard in the path can make unrelated matching rows
block the deletion — but there is no root-path check: deleting the root
`"/"` behaves exactly like any other directory and succeeds whenever the
query finds no children. -/
theorem C7_deleteDirectory_amended (s : FsState) (p : String) (c m : Nat)
    (hdir : alGet s.nodes p = some (NodeT.dir c m)) :
    (listChildrenQ s.nodes p = [] →
      (deleteDirectory s p).res = Except.ok () ∧
      alGet (deleteDirectory s p).st.nodes p = none) ∧
    (listChildrenQ s.nodes p ≠ [] →
      (deleteDirectory s p).res = Except.error Err.directoryNotEmpty ∧
      (deleteDirectory s p).st = s) := by
  unfold deleteDirectory
  simp only [hdir]
  constructor
  · intro hemp
    rw [if_neg (by simp [hemp])]
    exact ⟨rfl, alGet_alRemove_self s.nodes p⟩
  · intro hne
    rw [if_pos (by simpa [List.length_pos] using hne)]
    exact ⟨rfl, rfl⟩

/-- C7 witness: both halves of the amended statement — `deleteDirectory "/"`
succeeds on a store holding only the root directory, and
`deleteDirectory "/my_dir"`, whose `_` wildcard makes the child query
return `/myXdir/f`, fails with Conflict and changes nothing, matching the
real query's behavior. -/
theorem C7_deleteDirectory_amended_witness :
    (alGet stRoot.nodes "/" = some (NodeT.dir 0 0) ∧
     listChildrenQ stRoot.nodes "/" = [] ∧
     (deleteDirectory stRoot "/").res = Except.ok () ∧
     alGet (deleteDirectory stRoot "/").st.nodes "/" = none) ∧
    (alGet stWild.nodes "/my_dir" = some (NodeT.dir 0 0) ∧
     listChildrenQ stWild.nodes "/my_dir" ≠ [] ∧
     (deleteDirectory stWild "/my_dir").res = Except.error Err.directoryNotEmpty ∧
     (deleteDirectory stWild "/my_dir").st = stWild) :=
  ⟨⟨rfl, rfl, (C7_deleteDirectory_amended stRoot "/" 0 0 rfl).1 rfl⟩,
   ⟨rfl, by decide, (C7_deleteDirectory_amended stWild "/my_dir" 0 0 rfl).2 (by decide)⟩⟩

/-- C7 counterexample: deleting the root path `"/"` does not fail with
Conflict when the root is empty — it succeeds and removes the root node. -/
theorem C7_root_delete_counterexample :
    (deleteDirectory stRoot "/").res = Except.ok () ∧
    (deleteDirectory stRoot "/").st.nodes = [] :=
  ⟨rfl, rfl⟩

/-! ## Orphan cleanup never terminates once a full batch repeats -/

theorem cleanupInBatches_swept_none :
    ∀ (fuel total : Nat), cleanupInBatches fuel stOrphanSwept 1 total = none := by
  intro fuel
  induction fuel with
  | zero => intro total; rfl
  | succ n ih => intro total; exact ih (total + 1)

/-! ## Every non-validating operation hits the store first -/

theorem readFile_tr_shape (s : FsState) (q : String) :
    ∃ rest, (readFile s q).tr = Ev.metaGetNode q :: rest := by
  unfold readFile
  cases hn : alGet s.nodes q with
  | none => exact ⟨[], by simp [hn]⟩
  | some n =>
    cases n with
    | dir c m => exact ⟨[], by simp [hn]⟩
    | file h sz mm cA mA =>
      cases hb : alGet s.blobs h with
      | none => exact ⟨[Ev.blobRead h], by simp [hn, hb]⟩
      | some b => exact ⟨[Ev.blobRead h], by simp [hn, hb]⟩

theorem deleteFile_tr_shape (s : FsState) (q : String) (t : Nat) :
    ∃ rest, (deleteFile s q t).tr = Ev.metaGetNode q :: rest := by
  unfold deleteFile
  cases hn : alGet s.nodes q with
  | none => exact ⟨[], by simp [hn]⟩
  | some n =>
    cases n with
    | dir c m => exact ⟨[], by simp [hn]⟩
    | file h sz mm cA mA =>
      simp only [hn]
      cases hd : decRefRecs s.refs h t with
      | none => exact ⟨[Ev.metaDeleteNode q, Ev.metaDecRef h], by simp [hd]⟩
      | some pr =>
        obtain ⟨r, rs⟩ := pr
        by_cases hz : r = 0
        · exact ⟨[Ev.metaDeleteNode q, Ev.metaDecRef h, Ev.blobDelete h], by simp [hd, hz]⟩
        · exact ⟨[Ev.metaDeleteNode q, Ev.metaDecRef h], by simp [hd, hz]⟩

theorem deleteDirectory_tr_shape (s : FsState) (q : String) :
    ∃ rest, (deleteDirectory s q).tr = Ev.metaGetNode q :: rest := by
  unfold deleteDirectory
  cases hn : alGet s.nodes q with
  | none => exact ⟨[], by simp [hn]⟩
  | some n =>
    cases n with
    | file h sz mm cA mA => exact ⟨[], by simp [hn]⟩
    | dir c m =>
      simp only [hn]
      by_cases hc : 0 < (listChildrenQ s.nodes q).length
      · exact ⟨[Ev.metaListChildren q], by simp [hc]⟩
      · exact ⟨[Ev.metaListChildren q, Ev.metaDeleteNode q], by simp [hc]⟩

theorem listDirectory_tr_shape (s : FsState) (q : String) :
    ∃ rest, (listDirectory s q).tr = Ev.metaGetNode q :: rest := by
  unfold listDirectory
  cases hn : alGet s.nodes q with
  | none => exact ⟨[], by simp [hn]⟩
  | some n =>
    cases n with
    | file h sz mm cA mA => exact ⟨[], by simp [hn]⟩
    | dir c m => exact ⟨[Ev.metaListChildren q], by simp [hn]⟩

theorem getInfo_tr_shape (s : FsState) (q : String) :
    ∃ rest, (getInfo s q).tr = Ev.metaGetNode q :: rest := by
  unfold getInfo
  cases hn : alGet s.nodes q with
  | none => exact ⟨[], by simp [hn]⟩
  | some n => exact ⟨[], by simp [hn]⟩

theorem copyFile_tr_shape (s : FsState) (src dst : String) (t : Nat) :
    ∃ rest, (copyFile s src dst t).tr = Ev.metaGetNode src :: rest := by
  unfold copyFile
  obtain ⟨r1, hr1⟩ := readFile_tr_shape s src
  cases hres : (readFile s src).res with
  | error e => exact ⟨r1, by simp [hres, hr1]⟩
  | ok content =>
    exact ⟨r1 ++ (writeFile (readFile s src).st dst content t).tr,
      by simp [hres, hr1]⟩

theorem moveFile_tr_shape (s : FsState) (src dst : String) (t : Nat) :
    ∃ rest, (moveFile s src dst t).tr = Ev.metaGetNode src :: rest := by
  unfold moveFile
  obtain ⟨r1, hr1⟩ := copyFile_tr_shape s src dst t
  cases hres : (copyFile s src dst t).res with
  | error e => exact ⟨r1, by simp [hres, hr1]⟩
  | ok u =>
    exact ⟨r1 ++ (deleteFile (copyFile s src dst t).st src t).tr,
      by simp [hres, hr1]⟩

/-- C4 amended: only `writeFile` and `createDirectory` validate the path,
rejecting every §4.1-invalid string with InvalidPath before any store call
(empty trace, unchanged state); the remaining operations perform no
validation and issue a metadata-store call with the raw string as their
first action. -/
theorem C4_validation_amended (s : FsState) (q : String) (B : Bytes) (t : Nat)
    (hv : validPath q = false) :
    (writeFile s q B t).res = Except.error Err.invalidPath ∧
    (writeFile s q B t).st = s ∧ (writeFile s q B t).tr = [] ∧
    (createDirectory s q t).res = Except.error Err.invalidPath ∧
    (createDirectory s q t).st = s ∧ (createDirectory s q t).tr = [] ∧
    (readFile s q).tr.head? = some (Ev.metaGetNode q) ∧
    (deleteFile s q t).tr.head? = some (Ev.metaGetNode q) ∧
    (deleteDirectory s q).tr.head? = some (Ev.metaGetNode q) ∧
    (listDirectory s q).tr.head? = some (Ev.metaGetNode q) ∧
    (getInfo s q).tr.head? = some (Ev.metaGetNode q) ∧
    (copyFile s q q t).tr.head? = some (Ev.metaGetNode q) ∧
    (moveFile s q q t).tr.head? = some (Ev.metaGetNode q) := by
  refine ⟨?_, ?_, ?_, ?_, ?_, ?_, ?_, ?_, ?_, ?_, ?_, ?_, ?_⟩
  · unfold writeFile; rw [if_neg (by simp [hv])]
  · unfold writeFile; rw [if_neg (by simp [hv])]
  · unfold writeFile; rw [if_neg (by simp [hv])]
  · unfold createDirectory; rw [if_neg (by simp [hv])]
  · unfold createDirectory; rw [if_neg (by simp [hv])]
  · unfold createDirectory; rw [if_neg (by simp [hv])]
  · obtain ⟨r, hr⟩ := readFile_tr_shape s q; rw [hr]; rfl
  · obtain ⟨r, hr⟩ := deleteFile_tr_shape s q t; rw [hr]; rfl
  · obtain ⟨r, hr⟩ := deleteDirectory_tr_shape s q; rw [hr]; rfl
  · obtain ⟨r, hr⟩ := listDirectory_tr_shape s q; rw [hr]; rfl
  · obtain ⟨r, hr⟩ := getInfo_tr_shape s q; rw [hr]; rfl
  · obtain ⟨r, hr⟩ := copyFile_tr_shape s q q t; rw [hr]; rfl
  · obtain ⟨r, hr⟩ := moveFile_tr_shape s q q t; rw [hr]; rfl

/-- C4 witness: the amended statement instantiated at the invalid path
`".."` on the empty store. -/
theorem C4_validation_amended_witness :
    validPath ".." = false ∧
    ((writeFile stEmpty ".." [] 0).res = Except.error Err.invalidPath ∧
     (writeFile stEmpty ".." [] 0).st = stEmpty ∧ (writeFile stEmpty ".." [] 0).tr = [] ∧
     (createDirectory stEmpty ".." 0).res = Except.error Err.invalidPath ∧
     (createDirectory stEmpty ".." 0).st = stEmpty ∧ (createDirectory stEmpty ".." 0).tr = [] ∧
     (readFile stEmpty "..").tr.head? = some (Ev.metaGetNode "..") ∧
     (deleteFile stEmpty ".." 0).tr.head? = some (Ev.metaGetNode "..") ∧
     (deleteDirectory stEmpty "..").tr.head? = some (Ev.metaGetNode "..") ∧
     (listDirectory stEmpty "..").tr.head? = some (Ev.metaGetNode "..") ∧
     (getInfo stEmpty "..").tr.head? = some (Ev.metaGetNode "..") ∧
     (copyFile stEmpty ".." ".." 0).tr.head? = some (Ev.metaGetNode "..") ∧
     (moveFile stEmpty ".." ".." 0).tr.head? = some (Ev.metaGetNode "..")) :=
  ⟨by rfl, C4_validation_amended stEmpty ".." [] 0 (by rfl)⟩

/-- C4 counterexample: `readFile` on the §4.1-invalid path `".."` does not
fail with InvalidPath and does issue a metadata-store call: it calls
`getNodeByPath("..")` and fails with FileNotFound. -/
theorem C4_readFile_invalid_counterexample :
    (readFile stEmpty "..").res = Except.error Err.fileNotFound ∧
    (readFile stEmpty "..").tr = [Ev.metaGetNode ".."] :=
  ⟨rfl, rfl⟩

/-- C10: `cleanupInBatches` does not terminate on a store with one orphaned
`blobs`-table row and batch size 1: `cleanup` deletes the blob object but
never the `blobs`-table row, so every pass fetches the same hash again and
returns a full batch; no fuel bound suffices for the source's
`while (true)` loop to exit. -/
theorem C10_cleanupInBatches_diverges :
    ∀ (fuel total : Nat), cleanupInBatches fuel stOrphan 1 total = none := by
  intro fuel total
  cases fuel with
  | zero => rfl
  | succ n => exact cleanupInBatches_swept_none n (total + 1)

end FsProof
